import Mathlib

/-!
Verification of the audio-captcha signal core of `captcha_generators/audio_captcha.py`.

The Python code is shallowly embedded as follows:

* byte strings become `List ℕ` (each entry a byte value `< 256`);
* Python floats become `ℚ` (the algorithms are expressed in exact arithmetic;
  `math.sin` and the random draws are abstracted as injected `ℚ`-valued
  functions, matching the spec's injectable random source);
* integer samples become `ℤ`; Python `//` is `Int.fdiv` (floor division),
  Python `int(...)` truncation toward zero is `ratTrunc`;
* code paths that raise exceptions (`wave.Error`, `EOFError`, `struct.error`,
  `ZeroDivisionError`, seek `RuntimeError`) become `none` in `Option`-valued
  functions: a raised exception yields no partial result.

The WAV container reader embeds the byte-level behaviour of CPython's
`wave.open(...,'rb')` / `readframes` (via `chunk.py`), which is what
`_wav_to_samples` calls; the writer embeds `wave.open(...,'wb')` as used by
`_samples_to_wav`, including the range checks `struct.pack` performs.
-/

attribute [local semireducible] Rat.add Rat.mul Rat.inv Rat.sub

namespace Captcha

/-! ## Byte-level utilities -/

/-- Little-endian unsigned decoding of a byte list, as done by
`struct.unpack` with formats `<H` / `<L` and by `int.from_bytes(..., "little")`. -/
def leDec : List ℕ → ℕ
  | [] => 0
  | b :: t => b + 256 * leDec t

/-- The two little-endian bytes of `n % 65536` (`struct.pack "<H"` payload). -/
def u16le (n : ℕ) : List ℕ := [n % 256, n / 256 % 256]

/-- The four little-endian bytes of `n % 2^32` (`struct.pack "<L"` payload). -/
def u32le (n : ℕ) : List ℕ := [n % 256, n / 256 % 256, n / 65536 % 256, n / 16777216 % 256]

/-- Truncation of a rational toward zero, the behaviour of Python's `int(x)`
on a real value. -/
def ratTrunc (q : ℚ) : ℤ := q.num.tdiv q.den

/-- Signed 16-bit value of two little-endian bytes (one `<h` item of
`struct.unpack`). -/
def i16ofBytes (b0 b1 : ℕ) : ℤ :=
  let u := b0 + 256 * b1
  if u < 32768 then (u : ℤ) else (u : ℤ) - 65536

/-- Little-endian signed 16-bit encoding, `struct.pack "<h"`: fails (raises
`struct.error`) outside `[-32768, 32767]`. -/
def packi16 (v : ℤ) : Option (List ℕ) :=
  if -32768 ≤ v ∧ v < 32768 then some (u16le (v % 65536).toNat) else none

/-- Signed little-endian integer of a byte list,
`int.from_bytes(bs, "little", signed=True)`. -/
def sIntOfBytesLE (bs : List ℕ) : ℤ :=
  if bs = [] then 0
  else
    let u := leDec bs
    if u < 2 ^ (8 * bs.length - 1) then (u : ℤ) else (u : ℤ) - 2 ^ (8 * bs.length)

/-! ## WaveformDecoder: `wave.open(io.BytesIO(wav_bytes), 'rb')` -/

/-- Chunk scan loop of `wave.Wave_read.initfp` over the sub-chunks of the
RIFF chunk.  `declRem` is the number of bytes the RIFF header still declares
(reads through the RIFF `Chunk` object are capped by it, and a `skip` past it
raises), `bytes` the actual remaining payload bytes (always at most `declRem`
long), `fmt?` the `(nchannels, sampwidth, framerate)` of a previously seen
`fmt ` chunk.  On finding a `data` chunk it returns the fmt data and the raw
frame bytes that `readframes(nframes)` returns.  `fuel` only bounds the
recursion; every iteration consumes at least 8 actual bytes, so
`bytes.length + 1` is always enough fuel. -/
def parseChunks : ℕ → ℕ → List ℕ → Option (ℕ × ℕ × ℕ) → Option ((ℕ × ℕ × ℕ) × List ℕ)
  | 0, _, _, _ => none
  | fuel + 1, declRem, bytes, fmt? =>
    -- Chunk.__init__: 4-byte chunk name, 4-byte little-endian size;
    -- a short read raises EOFError, which breaks the loop, and the missing
    -- data chunk then raises wave.Error.
    if (bytes.take 4).length < 4 then none
    else if ((bytes.drop 4).take 4).length < 4 then none
    else
      let name := bytes.take 4
      let csize := leDec ((bytes.drop 4).take 4)
      let declRem1 := declRem - 8
      let bytes1 := bytes.drop 8
      if name = [102, 109, 116, 32] then  -- b"fmt "
        -- _read_fmt_chunk: unpack_from("<HHLLH", chunk.read(14))
        let hdr := bytes1.take (min 14 csize)
        if hdr.length < 14 then none
        else if leDec (hdr.take 2) ≠ 1 then none  -- not WAVE_FORMAT_PCM
        else
          let nch := leDec ((hdr.drop 2).take 2)
          let rate := leDec ((hdr.drop 4).take 4)
          let bits := (bytes1.drop 14).take (min 2 (csize - 14))
          if bits.length < 2 then none
          else
            let sw := (leDec bits + 7) / 8
            if sw = 0 then none  -- wave.Error: bad sample width
            else if nch = 0 then none  -- wave.Error: bad number of channels
            else
              -- chunk.skip(): seek the parent past the rest of the chunk
              -- (plus the pad byte when the chunk size is odd); seeking past
              -- the parent's declared size raises.
              let skipN := (csize - 16) + (if csize % 2 = 1 then 1 else 0)
              if declRem1 - 16 < skipN then none
              else parseChunks fuel (declRem1 - 16 - skipN) ((bytes1.drop 16).drop skipN)
                (some (nch, sw, rate))
      else if name = [100, 97, 116, 97] then  -- b"data"
        match fmt? with
        | none => none  -- wave.Error: data chunk before fmt chunk
        | some (nch, sw, rate) =>
          -- nframes = chunksize // framesize; readframes(nframes) reads
          -- nframes * framesize bytes (fewer when the input is truncated).
          let framesize := nch * sw
          let nframes := csize / framesize
          some ((nch, sw, rate), bytes1.take (nframes * framesize))
      else
        let skipN := csize + (if csize % 2 = 1 then 1 else 0)
        if declRem1 < skipN then none
        else parseChunks fuel (declRem1 - skipN) (bytes1.drop skipN) fmt?

/-- `wave.open` on a byte string: checks the `RIFF` id and `WAVE` form type,
then scans chunks; returns `(nchannels, sampwidth, framerate)` and the bytes
of `readframes(getnframes())`. -/
def wavOpenRead (file : List ℕ) : Option ((ℕ × ℕ × ℕ) × List ℕ) :=
  if (file.take 4).length < 4 then none
  else if ((file.drop 4).take 4).length < 4 then none
  else if file.take 4 ≠ [82, 73, 70, 70] then none  -- b"RIFF"
  else
    let csize := leDec ((file.drop 4).take 4)
    if (file.drop 8).take (min 4 csize) ≠ [87, 65, 86, 69] then none  -- b"WAVE"
    else parseChunks (file.length + 1) (csize - 4) ((file.drop 12).take (csize - 4)) none

/-- The 16-bit branch of `_wav_to_samples`:
`struct.unpack(f"<{len(raw) // 2}h", raw)`; `struct.error` on odd length. -/
def unpack16 : List ℕ → Option (List ℤ)
  | [] => some []
  | [_] => none
  | b0 :: b1 :: t => (unpack16 t).map (fun r => i16ofBytes b0 b1 :: r)

/-- The generic-width branch of `_wav_to_samples`: step through the bytes in
strides of `sampwidth`, decoding each slice as a signed little-endian integer
and arithmetically shifting right by `8 * (sampwidth - 2)` bits. -/
def unpackWideGo (w : ℕ) : ℕ → List ℕ → List ℤ
  | 0, _ => []
  | _, [] => []
  | fuel + 1, raw@(_ :: _) =>
    Int.fdiv (sIntOfBytesLE (raw.take w)) (2 ^ (8 * (w - 2))) :: unpackWideGo w fuel (raw.drop w)

/-- Sample extraction of `_wav_to_samples` keyed on the sample width:
16-bit, 8-bit, or the generic branch.  A width of 0 would make the Python
`range(0, len, 0)` raise `ValueError`. -/
def extractSamples (sampwidth : ℕ) (raw : List ℕ) : Option (List ℤ) :=
  if sampwidth = 2 then unpack16 raw
  else if sampwidth = 1 then some (raw.map fun b => ((b : ℤ) - 128) * 256)
  else if sampwidth = 0 then none
  else some (unpackWideGo sampwidth raw.length raw)

/-- Stereo-to-mono downmix of `_wav_to_samples`: average consecutive pairs
with Python floor division `//`; a trailing unpaired sample is kept as is. -/
def stereoDownmix : List ℤ → List ℤ
  | [] => []
  | [a] => [a]
  | a :: b :: t => Int.fdiv (a + b) 2 :: stereoDownmix t

/-- `_wav_to_samples`: parse the container, extract integer samples, downmix
when the container declares 2 channels, normalize by 32768.0.  Any raised
exception yields `none` (no partial sample buffer). -/
def wavToSamples (file : List ℕ) : Option (List ℚ × ℕ) := do
  let ((nch, sw, rate), raw) ← wavOpenRead file
  let s ← extractSamples sw raw
  let s := if nch = 2 then stereoDownmix s else s
  pure (s.map (fun v => (v : ℚ) / 32768), rate)

/-! ## Resampler: `_resample` -/

/-- `_resample(samples, from_rate, to_rate)`: identity when the rates agree,
otherwise linear interpolation at positions `i * ratio`.  A zero rate on the
non-identity path makes the Python float division raise
`ZeroDivisionError`. -/
def resample (samples : List ℚ) (fromRate toRate : ℕ) : Option (List ℚ) :=
  if fromRate = toRate then some samples
  else if toRate = 0 ∨ fromRate = 0 then none
  else
    let ratio : ℚ := (fromRate : ℚ) / (toRate : ℚ)
    let newLength := (ratTrunc ((samples.length : ℚ) / ratio)).toNat
    some ((List.range newLength).map (fun (i : ℕ) =>
      let srcIdx : ℚ := (i : ℚ) * ratio
      let idx := (ratTrunc srcIdx).toNat
      let frac := srcIdx - (idx : ℚ)
      if idx + 1 < samples.length then
        samples.getD idx 0 * (1 - frac) + samples.getD (idx + 1) 0 * frac
      else if idx < samples.length then samples.getD idx 0
      else 0))

/-! ## NoiseSynthesizer: `_add_noise` -/

/-- One request's randomly drawn distortion parameters (the spec's
`DistortionProfile`).  The uniform draws of `_add_noise` are abstracted as
injected `ℚ`-valued functions: `whiteDraw i` is the white-noise draw for
index `i`, each burst carries its own per-index draw (absorbing its
`crackle_vol`), and `sine x` stands for `math.sin(2 * math.pi * x)`. -/
structure DistortionProfile where
  whiteDraw : ℕ → ℚ
  humFreq : ℚ
  humVol : ℚ
  bursts : List (ℕ × ℕ × (ℕ → ℚ))
  warbleFreq : ℚ
  warbleDepth : ℚ
  sine : ℚ → ℚ

/-- Pass 1 of `_add_noise`: add an independent white-noise draw to every
sample. -/
def whitePass (samples : List ℚ) (p : DistortionProfile) : List ℚ :=
  samples.mapIdx (fun i s => s + p.whiteDraw i)

/-- Pass 2 of `_add_noise`: add `hum_vol * sin(2 pi hum_freq * i / rate)`. -/
def humPass (samples : List ℚ) (sampleRate : ℕ) (p : DistortionProfile) : List ℚ :=
  samples.mapIdx (fun i s => s + p.humVol * p.sine (p.humFreq * ((i : ℚ) / (sampleRate : ℚ))))

/-- One crackle burst of `_add_noise`, pass 3: the in-place loop
`for i in range(start, min(start + length, n)): samples[i] += draw(i)`. -/
def crackleBurst (samples : List ℚ) (start burstLen : ℕ) (draw : ℕ → ℚ) : List ℚ :=
  (List.range' start (min (start + burstLen) samples.length - start)).foldl
    (fun acc i => acc.set i (acc.getD i 0 + draw i)) samples

/-- Pass 3 of `_add_noise`: apply the drawn crackle bursts in order. -/
def cracklePass (samples : List ℚ) (p : DistortionProfile) : List ℚ :=
  p.bursts.foldl (fun acc b => crackleBurst acc b.1 b.2.1 b.2.2) samples

/-- Pass 4 of `_add_noise`: multiply each sample by
`1 + warble_depth * sin(2 pi warble_freq * i / rate)`. -/
def warblePass (samples : List ℚ) (sampleRate : ℕ) (p : DistortionProfile) : List ℚ :=
  samples.mapIdx (fun i s =>
    s * (1 + p.warbleDepth * p.sine (p.warbleFreq * ((i : ℚ) / (sampleRate : ℚ)))))

/-- `_add_noise(samples, sample_rate)`: the four passes in order.  With a zero
sample rate and a nonempty buffer the Python `i / sample_rate` raises
`ZeroDivisionError`. -/
def addNoise (samples : List ℚ) (sampleRate : ℕ) (p : DistortionProfile) : Option (List ℚ) :=
  if sampleRate = 0 ∧ samples ≠ [] then none
  else some (warblePass (cracklePass (humPass (whitePass samples p) sampleRate p) p)
    sampleRate p)

/-! ## WaveformEncoder: `_samples_to_wav` -/

/-- Clamp to `[-1.0, 1.0]`: `max(-1.0, min(1.0, s))`. -/
def clampQ (s : ℚ) : ℚ := max (-1) (min 1 s)

/-- Quantization of one sample: `int(clamped * 32767)`. -/
def quantize (s : ℚ) : ℤ := ratTrunc (clampQ s * 32767)

/-- The sample-packing loop of `_samples_to_wav`:
`packed += struct.pack("<h", int(clamped * 32767))`. -/
def packSamples : List ℚ → Option (List ℕ)
  | [] => some []
  | s :: t => do
    let b ← packi16 (quantize s)
    let rest ← packSamples t
    pure (b ++ rest)

/-- The byte image `wave.Wave_write` emits: 44-byte header (RIFF size,
`WAVE`, a 16-byte PCM `fmt ` chunk declaring 1 channel, 16 bits and the given
rate, and the `data` chunk header) followed by the packed frames. -/
def wavRender (rate dl : ℕ) (packed : List ℕ) : List ℕ :=
  [82, 73, 70, 70] ++ u32le (36 + dl) ++ [87, 65, 86, 69]
    ++ [102, 109, 116, 32] ++ u32le 16 ++ u16le 1 ++ u16le 1
    ++ u32le rate ++ u32le (2 * rate) ++ u16le 2 ++ u16le 16
    ++ [100, 97, 116, 97] ++ u32le dl ++ packed

/-- `_samples_to_wav(samples, sample_rate)`: quantize and pack every sample,
then emit the container.  `wave.setframerate` raises on a rate of 0, and
`struct.pack("<L", x)` raises when a header field does not fit 32 bits. -/
def samplesToWav (samples : List ℚ) (rate : ℕ) : Option (List ℕ) :=
  if rate = 0 then none  -- wave.Error: bad frame rate
  else do
    let packed ← packSamples samples
    let dl := packed.length / 2 * 2  -- nframes * nchannels * sampwidth
    if 2 ^ 32 ≤ 2 * rate ∨ 2 ^ 32 ≤ 36 + dl then none  -- struct.error
    else some (wavRender rate dl packed)

/-! ## Orchestrator: `generate_text`, `generate_audio`, `generate` -/

/-- The `CHAR_TO_WORD` table. -/
def charToWord : List (Char × String) :=
  [('0', "zero"), ('1', "one"), ('2', "two"), ('3', "three"), ('4', "four"),
   ('5', "five"), ('6', "six"), ('7', "seven"), ('8', "eight"), ('9', "nine"),
   ('A', "ay"), ('B', "bee"), ('C', "see"), ('D', "dee"), ('E', "ee"),
   ('F', "eff"), ('G', "jee"), ('H', "aitch"), ('J', "jay"), ('K', "kay"),
   ('L', "ell"), ('M', "em"), ('N', "en"), ('P', "pee"), ('Q', "queue"),
   ('R', "are"), ('S', "ess"), ('T', "tee"), ('U', "you"), ('V', "vee"),
   ('W', "double you"), ('X', "ex"), ('Y', "why"), ('Z', "zed")]

/-- `CHAR_TO_WORD.get(char, char)`: unmapped characters pass through. -/
def spokenWord (c : Char) : String := (charToWord.lookup c).getD (String.singleton c)

/-- The spoken phrase of `generate_audio`: words joined by `" .... "`. -/
def spokenText (text : String) : String :=
  String.intercalate " .... " (text.data.map spokenWord)

/-- `generate_text(length)`: `length` independent draws from the digit
alphabet `"0123456789"`; `draws i` is the index drawn by
`random.choices` for position `i`. -/
def generateText (draws : ℕ → Fin 10) (len : ℕ) : String :=
  String.mk ((List.range len).map (fun i => Char.ofNat (48 + (draws i).val)))

/-- The base64 alphabet. -/
def b64alphabet : List Char :=
  "ABCDEFGHIJKLMNOPQRSTUVWXYZabcdefghijklmnopqrstuvwxyz0123456789+/".data

/-- Character of a 6-bit value. -/
def b64char (n : ℕ) : Char := b64alphabet.getD n 'A'

/-- Standard base64 encoding of a byte list (`base64.b64encode`). -/
def b64encodeL : List ℕ → List Char
  | [] => []
  | [a] => [b64char (a / 4), b64char (a % 4 * 16), '=', '=']
  | [a, b] => [b64char (a / 4), b64char (a % 4 * 16 + b / 16), b64char (b % 16 * 4), '=']
  | a :: b :: c :: t =>
    b64char (a / 4) :: b64char (a % 4 * 16 + b / 16) :: b64char (b % 16 * 4 + c / 64)
      :: b64char (c % 64) :: b64encodeL t

/-- Index of a character in the base64 alphabet; `none` when it is not a
base64 digit. -/
def b64index (c : Char) : Option ℕ :=
  let i := b64alphabet.indexOf c
  if i < 64 then some i else none

/-- Standard base64 decoding, the inverse of `b64encodeL`; used to state that
a data URI payload decodes to given container bytes. -/
def b64decodeL : List Char → Option (List ℕ)
  | [] => some []
  | c1 :: c2 :: c3 :: c4 :: t =>
    if c3 = '=' ∧ c4 = '=' ∧ t = [] then do
      let s1 ← b64index c1
      let s2 ← b64index c2
      pure [s1 * 4 + s2 / 16]
    else if c4 = '=' ∧ t = [] then do
      let s1 ← b64index c1
      let s2 ← b64index c2
      let s3 ← b64index c3
      pure [s1 * 4 + s2 / 16, s2 % 16 * 16 + s3 / 4]
    else do
      let s1 ← b64index c1
      let s2 ← b64index c2
      let s3 ← b64index c3
      let s4 ← b64index c4
      let rest ← b64decodeL t
      pure ((s1 * 4 + s2 / 16) :: (s2 % 16 * 16 + s3 / 4) :: (s3 % 4 * 64 + s4) :: rest)
  | _ => none

/-- `generate_audio(text)` from the TTS output onward: decode the speech
bytes, resample to 22050 Hz when needed, distort, re-encode.  `tts` stands
for the external speech-synthesis collaborator
(`_generate_speech_wav` of the spoken phrase). -/
def generateAudio (text : String) (tts : String → List ℕ) (p : DistortionProfile) :
    Option (List ℕ) := do
  let (s, origRate) ← wavToSamples (tts (spokenText text))
  let s ← if origRate ≠ 22050 then resample s origRate 22050 else some s
  let s ← addNoise s 22050 p
  samplesToWav s 22050

/-- `generate(length)`: random text, spoken audio, and the base64 data URI. -/
def generate (len : ℕ) (draws : ℕ → Fin 10) (tts : String → List ℕ)
    (p : DistortionProfile) : Option (String × String) := do
  let text := generateText draws len
  let wav ← generateAudio text tts p
  pure (text, String.mk ("data:audio/wav;base64,".data ++ b64encodeL wav))

/-! ## Helper lemmas -/

theorem ratTrunc_of_nonneg {q : ℚ} (h : 0 ≤ q) : ratTrunc q = ⌊q⌋ := by
  rw [ratTrunc, Rat.floor_def]
  exact Int.tdiv_eq_ediv (Rat.num_nonneg.mpr h) (Int.ofNat_nonneg q.den)

theorem ratTrunc_neg (q : ℚ) : ratTrunc (-q) = -ratTrunc q := by
  simp [ratTrunc, Rat.neg_num, Rat.neg_den, Int.neg_tdiv]

theorem ratTrunc_of_nonpos {q : ℚ} (h : q ≤ 0) : ratTrunc q = -⌊-q⌋ := by
  have h2 := ratTrunc_neg (-q)
  rw [neg_neg] at h2
  rw [h2, ratTrunc_of_nonneg (neg_nonneg.mpr h)]

theorem foldl_set_length (idxs : List ℕ) (v : List ℚ → ℕ → ℚ) :
    ∀ acc : List ℚ, (idxs.foldl (fun a i => a.set i (v a i)) acc).length = acc.length := by
  induction idxs with
  | nil => intro acc; rfl
  | cons i t ih => intro acc; rw [List.foldl_cons, ih, List.length_set]

theorem foldl_set_getElem? (idxs : List ℕ) (v : List ℚ → ℕ → ℚ) (j : ℕ) (hj : j ∉ idxs) :
    ∀ acc : List ℚ, (idxs.foldl (fun a i => a.set i (v a i)) acc)[j]? = acc[j]? := by
  induction idxs with
  | nil => intro acc; rfl
  | cons i t ih =>
    intro acc
    simp only [List.mem_cons, not_or] at hj
    rw [List.foldl_cons, ih hj.2, List.getElem?_set_ne (Ne.symm hj.1)]

theorem crackleBurst_length (samples : List ℚ) (start burstLen : ℕ) (draw : ℕ → ℚ) :
    (crackleBurst samples start burstLen draw).length = samples.length := by
  unfold crackleBurst
  exact foldl_set_length _ _ samples

theorem foldl_crackle_length (bursts : List (ℕ × ℕ × (ℕ → ℚ))) :
    ∀ acc : List ℚ,
      (bursts.foldl (fun a b => crackleBurst a b.1 b.2.1 b.2.2) acc).length = acc.length := by
  induction bursts with
  | nil => intro acc; rfl
  | cons b t ih => intro acc; rw [List.foldl_cons, ih, crackleBurst_length]

theorem stereoDownmix_length (s : List ℤ) : (stereoDownmix s).length = (s.length + 1) / 2 := by
  induction s using stereoDownmix.induct with
  | case1 => rfl
  | case2 a => simp [stereoDownmix]
  | case3 a b t ih => simp only [stereoDownmix, List.length_cons, ih]; omega

theorem getLast?_cons_of_ne_nil {α : Type} (a : α) {l : List α} (h : l ≠ []) :
    (a :: l).getLast? = l.getLast? := by
  obtain ⟨b, t, rfl⟩ := List.exists_cons_of_ne_nil h
  exact List.getLast?_cons_cons

/-! ## Claims -/

/-- C3: resampling a buffer from a rate to the same rate returns the buffer
unchanged. -/
theorem resample_same_rate (samples : List ℚ) (r : ℕ) : resample samples r r = some samples := by
  simp [resample]

/-- C6: a crackle burst only mutates indices in
`[start, min (start + length) n)`; every other position of the buffer keeps
its value, and the length never changes, even when `start + length`
exceeds the buffer length. -/
theorem crackleBurst_writes_within_bounds (samples : List ℚ) (start burstLen : ℕ)
    (draw : ℕ → ℚ) (j : ℕ)
    (hj : j < start ∨ min (start + burstLen) samples.length ≤ j) :
    (crackleBurst samples start burstLen draw)[j]? = samples[j]? ∧
      (crackleBurst samples start burstLen draw).length = samples.length := by
  constructor
  · unfold crackleBurst
    refine foldl_set_getElem? _ _ j ?_ samples
    intro hmem
    rw [List.mem_range'_1] at hmem
    omega
  · exact crackleBurst_length samples start burstLen draw

/-- C6 witness. -/
theorem crackleBurst_writes_within_bounds_spot :
    (crackleBurst [1, 2, 3, 4] 1 10 (fun _ => 5))[0]? = [(1 : ℚ), 2, 3, 4][0]? ∧
      (crackleBurst [1, 2, 3, 4] 1 10 (fun _ => 5)).length = [(1 : ℚ), 2, 3, 4].length :=
  crackleBurst_writes_within_bounds [1, 2, 3, 4] 1 10 (fun _ => 5) 0 (by decide)

/-- C7: the distortion pass returns a buffer of exactly the input's length
(the sample rate is passed through unchanged next to it); only sample values
change. -/
theorem addNoise_preserves_length (samples : List ℚ) (rate : ℕ) (p : DistortionProfile)
    (out : List ℚ) (h : addNoise samples rate p = some out) : out.length = samples.length := by
  unfold addNoise at h
  split at h
  · exact absurd h (by simp)
  · replace h := Option.some.inj h
    subst h
    unfold warblePass cracklePass humPass whitePass
    rw [List.length_mapIdx, foldl_crackle_length, List.length_mapIdx, List.length_mapIdx]

/-- C7 witness. -/
theorem addNoise_preserves_length_spot :
    addNoise [0, 1] 22050 ⟨fun _ => 1, 1, 1, [(0, 5, fun _ => 1)], 1, 1, fun _ => 0⟩
        = some [2, 3] ∧ ([(2 : ℚ), 3]).length = ([(0 : ℚ), 1]).length :=
  ⟨by decide,
    addNoise_preserves_length [0, 1] 22050
      ⟨fun _ => 1, 1, 1, [(0, 5, fun _ => 1)], 1, 1, fun _ => 0⟩ [2, 3] (by decide)⟩

/-- C10: decoding a stereo sample list of odd length keeps the final unpaired
sample unchanged as the last mono sample, and the mono length is
`⌈count / 2⌉ = (count + 1) / 2`. -/
theorem stereoDownmix_odd_last (s : List ℤ) (h : s.length % 2 = 1) :
    (stereoDownmix s).length = (s.length + 1) / 2 ∧
      (stereoDownmix s).getLast? = s.getLast? := by
  refine ⟨stereoDownmix_length s, ?_⟩
  induction s using stereoDownmix.induct with
  | case1 => simp at h
  | case2 a => rfl
  | case3 a b t ih =>
    have ht : t.length % 2 = 1 := by
      simp only [List.length_cons] at h
      omega
    have htne : t ≠ [] := by
      intro hnil
      rw [hnil] at ht
      simp at ht
    have hd : stereoDownmix t ≠ [] := by
      intro hnil
      have hlen := stereoDownmix_length t
      rw [hnil] at hlen
      have : t.length = 0 := by
        simp at hlen
        omega
      exact htne (List.length_eq_zero.mp this)
    rw [stereoDownmix, getLast?_cons_of_ne_nil _ hd, ih ht,
      getLast?_cons_of_ne_nil _ (by simp), getLast?_cons_of_ne_nil _ htne]

/-- C10 witness. -/
theorem stereoDownmix_odd_last_spot :
    (stereoDownmix [10, 20, 30]).length = (([10, 20, 30] : List ℤ).length + 1) / 2 ∧
      (stereoDownmix [10, 20, 30]).getLast? = ([10, 20, 30] : List ℤ).getLast? :=
  stereoDownmix_odd_last [10, 20, 30] (by decide)

/-- C1 (amended): the stereo downmix averages each consecutive pair with
Python's floor division `//` (rounding toward negative infinity), so the
mono sample of the pair at indices `2i, 2i+1` is `(l + r).fdiv 2`, not the
truncation toward zero of `(l + r) / 2`. -/
theorem stereoDownmix_pair_floor (s : List ℤ) (i : ℕ) (h : 2 * i + 1 < s.length) :
    (stereoDownmix s)[i]? = some (Int.fdiv (s.getD (2 * i) 0 + s.getD (2 * i + 1) 0) 2) := by
  induction i generalizing s with
  | zero =>
    cases s with
    | nil => simp at h
    | cons a t =>
      cases t with
      | nil => simp at h
      | cons b t2 => simp [stereoDownmix]
  | succ i ih =>
    cases s with
    | nil => simp at h
    | cons a t =>
      cases t with
      | nil => simp at h
      | cons b t2 =>
        have ht : 2 * i + 1 < t2.length := by
          simp only [List.length_cons] at h
          omega
        have h2 : 2 * (i + 1) = 2 * i + 1 + 1 := by ring
        rw [stereoDownmix, List.getElem?_cons_succ, ih t2 ht, h2]
        simp

/-- C1 amended-claim witness. -/
theorem stereoDownmix_pair_floor_spot :
    (stereoDownmix [0, -3])[0]? = some (Int.fdiv (([0, -3] : List ℤ).getD 0 0
      + ([0, -3] : List ℤ).getD 1 0) 2) :=
  stereoDownmix_pair_floor [0, -3] 0 (by decide)

/-- C1 counterexample: a decoded stereo container holding the single pair
`(0, -3)` produces the mono sample `-2 / 32768` (floor division), while the
claimed truncation toward zero of `(0 + -3) / 2` is `-1`. -/
theorem stereoDownmix_not_trunc :
    wavOpenRead ([82, 73, 70, 70] ++ u32le 40 ++ [87, 65, 86, 69] ++ [102, 109, 116, 32]
        ++ u32le 16 ++ u16le 1 ++ u16le 2 ++ u32le 8000 ++ u32le 32000 ++ u16le 4
        ++ u16le 16 ++ [100, 97, 116, 97] ++ u32le 4 ++ [0, 0, 253, 255])
      = some ((2, 2, 8000), [0, 0, 253, 255]) ∧
    i16ofBytes 0 0 = 0 ∧ i16ofBytes 253 255 = -3 ∧
    wavToSamples ([82, 73, 70, 70] ++ u32le 40 ++ [87, 65, 86, 69] ++ [102, 109, 116, 32]
        ++ u32le 16 ++ u16le 1 ++ u16le 2 ++ u32le 8000 ++ u32le 32000 ++ u16le 4
        ++ u16le 16 ++ [100, 97, 116, 97] ++ u32le 4 ++ [0, 0, 253, 255])
      = some ([(-2 : ℚ) / 32768], 8000) ∧
    ratTrunc (((0 : ℚ) + -3) / 2) = -1 ∧ ((-2 : ℚ) / 32768) ≠ ((-1 : ℚ) / 32768) := by
  refine ⟨by decide, by decide, by decide, by decide, by decide, by decide⟩

/-! ## Encoder lemmas -/

theorem clampQ_mem (s : ℚ) : -1 ≤ clampQ s ∧ clampQ s ≤ 1 := by
  unfold clampQ
  exact ⟨le_max_left _ _, max_le (by norm_num) (min_le_left _ _)⟩

theorem quantize_bounds (s : ℚ) : -32767 ≤ quantize s ∧ quantize s ≤ 32767 := by
  obtain ⟨h1, h2⟩ := clampQ_mem s
  unfold quantize
  have hql : -32767 ≤ clampQ s * 32767 := by nlinarith
  have hqu : clampQ s * 32767 ≤ 32767 := by nlinarith
  rcases le_or_lt 0 (clampQ s * 32767) with h | h
  · rw [ratTrunc_of_nonneg h]
    have hfl : (0 : ℤ) ≤ ⌊clampQ s * 32767⌋ := Int.floor_nonneg.mpr h
    have hfu : ⌊clampQ s * 32767⌋ ≤ (32767 : ℤ) := by
      calc ⌊clampQ s * 32767⌋ ≤ ⌊(32767 : ℚ)⌋ := Int.floor_le_floor hqu
        _ = 32767 := by norm_num
    omega
  · rw [ratTrunc_of_nonpos h.le]
    have hfl : (0 : ℤ) ≤ ⌊-(clampQ s * 32767)⌋ := Int.floor_nonneg.mpr (by linarith)
    have hfu : ⌊-(clampQ s * 32767)⌋ ≤ (32767 : ℤ) := by
      calc ⌊-(clampQ s * 32767)⌋ ≤ ⌊(32767 : ℚ)⌋ := Int.floor_le_floor (by linarith)
        _ = 32767 := by norm_num
    omega

theorem packi16_quantize (s : ℚ) :
    packi16 (quantize s) = some (u16le (quantize s % 65536).toNat) := by
  obtain ⟨h1, h2⟩ := quantize_bounds s
  unfold packi16
  rw [if_pos ⟨by omega, by omega⟩]

theorem packSamples_eq (s : List ℚ) :
    packSamples s = some ((s.map (fun x => u16le (quantize x % 65536).toNat)).flatten) := by
  induction s with
  | nil => rfl
  | cons x t ih => simp [packSamples, packi16_quantize, ih]

theorem flatten_length_const {α β : Type} (g : α → List β) (k : ℕ) (hg : ∀ x, (g x).length = k)
    (s : List α) : ((s.map g).flatten).length = k * s.length := by
  induction s with
  | nil => simp
  | cons x t ih =>
    rw [List.map_cons, List.flatten_cons, List.length_append, ih, hg, List.length_cons,
      Nat.mul_succ]
    omega

theorem packedLength (s : List ℚ) :
    ((s.map (fun x => u16le (quantize x % 65536).toNat)).flatten).length = 2 * s.length :=
  flatten_length_const (fun x => u16le (quantize x % 65536).toNat) 2 (fun _ => rfl) s

theorem samplesToWav_eq (s : List ℚ) (rate : ℕ) (h1 : 0 < rate) (h2 : 2 * rate < 2 ^ 32)
    (h3 : 36 + 2 * s.length < 2 ^ 32) :
    samplesToWav s rate
      = some (wavRender rate (2 * s.length)
          ((s.map (fun x => u16le (quantize x % 65536).toNat)).flatten)) := by
  unfold samplesToWav
  rw [if_neg (by omega), packSamples_eq]
  have hp := packedLength s
  simp only [Option.bind_eq_bind, Option.some_bind, hp]
  rw [if_neg (by omega)]
  have hdl : 2 * s.length / 2 * 2 = 2 * s.length := by omega
  rw [hdl]

/-- C5 (amended): encoding succeeds whenever `0 < rate`, `2 * rate < 2 ^ 32`
and `36 + 2 * length < 2 ^ 32` (outside these bounds `wave.setframerate` or
`struct.pack "<L"` raises), and then the container is 44 header bytes plus
the data: it declares 1 channel (offset 22), the given rate (offset 24) and
16 bits per sample (offset 34), and the data section holds, per input sample,
the two little-endian bytes of the signed 16-bit value
`trunc(clamp(s, -1, 1) * 32767)`. -/
theorem samplesToWav_container_fields (s : List ℚ) (rate : ℕ) (h1 : 0 < rate)
    (h2 : 2 * rate < 2 ^ 32) (h3 : 36 + 2 * s.length < 2 ^ 32) :
    ∃ w, samplesToWav s rate = some w ∧
      w.length = 44 + 2 * s.length ∧
      leDec ((w.drop 22).take 2) = 1 ∧
      leDec ((w.drop 24).take 4) = rate ∧
      leDec ((w.drop 34).take 2) = 16 ∧
      w.drop 44 = (s.map (fun x =>
        u16le ((ratTrunc (max (-1) (min 1 x) * 32767)) % 65536).toNat)).flatten := by
  refine ⟨_, samplesToWav_eq s rate h1 h2 h3, ?_, ?_, ?_, ?_, ?_⟩
  · rw [wavRender]
    simp only [List.length_append, packedLength]
    simp only [u32le, u16le, List.length_cons, List.length_nil]
  · simp [wavRender, u32le, u16le, leDec]
  · simp only [wavRender, u32le, u16le, List.cons_append, List.nil_append]
    simp [leDec]
    omega
  · simp [wavRender, u32le, u16le, leDec]
  · simp only [wavRender, u32le, u16le, List.cons_append, List.nil_append]
    simp [quantize, clampQ]

/-- C5 counterexample: with rate 0 (`wave.Error: bad frame rate`) the encoder
fails even on the empty buffer, so encoding is not total in the rate. -/
theorem samplesToWav_not_total : samplesToWav [] 0 = none := by decide

theorem leDec_u32le (n : ℕ) (h : n < 4294967296) : leDec (u32le n) = n := by
  simp [leDec, u32le]
  omega

theorem parseChunks_two (f rate m : ℕ) (packed : List ℕ) (hp : packed.length = 2 * m)
    (h2 : rate < 2 ^ 32) (h3 : 2 * m < 2 ^ 32) :
    parseChunks (f + 2) (32 + 2 * m)
      (102 :: 109 :: 116 :: 32 :: 16 :: 0 :: 0 :: 0
        :: 1 :: 0 :: 1 :: 0
        :: rate % 256 :: rate / 256 % 256 :: rate / 65536 % 256 :: rate / 16777216 % 256
        :: (2 * rate) % 256 :: (2 * rate) / 256 % 256 :: (2 * rate) / 65536 % 256
        :: (2 * rate) / 16777216 % 256
        :: 2 :: 0 :: 16 :: 0
        :: 100 :: 97 :: 116 :: 97
        :: (2 * m) % 256 :: (2 * m) / 256 % 256 :: (2 * m) / 65536 % 256
        :: (2 * m) / 16777216 % 256 :: packed)
      none = some ((1, 2, rate), packed) := by
  simp [parseChunks, leDec]
  omega

/-- Parsing the container the encoder emits returns 1 channel, 16-bit width,
the encoded rate, and exactly the packed sample bytes. -/
theorem wavOpenRead_render (rate m : ℕ) (packed : List ℕ) (hp : packed.length = 2 * m)
    (h2 : 2 * rate < 2 ^ 32) (h3 : 36 + 2 * m < 2 ^ 32) :
    wavOpenRead (wavRender rate (2 * m) packed) = some ((1, 2, rate), packed) := by
  have hr : rate < 2 ^ 32 := by omega
  have hm3 : 2 * m < 2 ^ 32 := by omega
  simp only [wavRender, u32le, u16le, List.cons_append, List.nil_append]
  unfold wavOpenRead
  simp only [List.take_succ_cons, List.take_zero, List.drop_succ_cons, List.drop_zero,
    List.length_cons, List.length_nil, leDec]
  norm_num
  have e1 : (36 + 2 * m) % 256 + 256 * ((36 + 2 * m) / 256 % 256
      + 256 * ((36 + 2 * m) / 65536 % 256 + 256 * ((36 + 2 * m) / 16777216 % 256)))
      = 36 + 2 * m := by omega
  rw [e1]
  constructor
  · have e4 : 4 ⊓ (36 + 2 * m) = 4 := by omega
    rw [e4]
    simp
  · convert parseChunks_two (2 * m + 43) rate m packed hp hr hm3 using 2
    · omega
    · omega
    · exact List.take_of_length_le (by simp only [List.length_cons, hp]; omega)

theorem i16ofBytes_pack (v : ℤ) (h1 : -32768 ≤ v) (h2 : v < 32768) :
    i16ofBytes ((v % 65536).toNat % 256) ((v % 65536).toNat / 256 % 256) = v := by
  simp only [i16ofBytes]
  split <;> omega

theorem unpack16_pack (vs : List ℚ) :
    unpack16 ((vs.map (fun x => u16le (quantize x % 65536).toNat)).flatten)
      = some (vs.map quantize) := by
  induction vs with
  | nil => rfl
  | cons x t ih =>
    obtain ⟨hl, hr⟩ := quantize_bounds x
    rw [List.map_cons, List.flatten_cons]
    show unpack16 ((quantize x % 65536).toNat % 256 :: (quantize x % 65536).toNat / 256 % 256
        :: (List.map (fun y => u16le (quantize y % 65536).toNat) t).flatten)
      = some (quantize x :: List.map quantize t)
    rw [unpack16, ih]
    simp [i16ofBytes_pack (quantize x) (by omega) (by omega)]

theorem flatMap_pure_map {α β : Type} (g : α → β) (l : List α) :
    (l.flatMap fun a => [g a]) = l.map g := by
  induction l with
  | nil => rfl
  | cons x t ih => simp [ih]

theorem wavToSamples_render (s : List ℚ) (rate : ℕ) (h2 : 2 * rate < 2 ^ 32)
    (h3 : 36 + 2 * s.length < 2 ^ 32) :
    wavToSamples (wavRender rate (2 * s.length)
        ((s.map (fun x => u16le (quantize x % 65536).toNat)).flatten))
      = some (s.map (fun x => ((quantize x : ℤ) : ℚ) / 32768), rate) := by
  unfold wavToSamples
  rw [wavOpenRead_render rate s.length _ (packedLength s) h2 h3]
  simp only [Option.bind_eq_bind, Option.some_bind]
  rw [extractSamples]
  simp only [if_pos]
  rw [unpack16_pack]
  simp [List.map_map, flatMap_pure_map, Function.comp]

theorem clampQ_id {x : ℚ} (h1 : -1 ≤ x) (h2 : x ≤ 1) : clampQ x = x := by
  unfold clampQ
  rw [min_eq_right h2, max_eq_right h1]

theorem quantize_roundtrip_close (k : ℤ) (h1 : -32768 ≤ k) (h2 : k ≤ 32767) :
    |((quantize ((k : ℚ) / 32768) : ℤ) : ℚ) / 32768 - (k : ℚ) / 32768| ≤ 1 / 32768 := by
  have hc1 : (-32768 : ℚ) ≤ (k : ℚ) := by exact_mod_cast h1
  have hc2 : (k : ℚ) ≤ 32767 := by exact_mod_cast h2
  have hk1 : (-1 : ℚ) ≤ (k : ℚ) / 32768 := by
    rw [le_div_iff₀ (by norm_num)]
    linarith
  have hk2 : (k : ℚ) / 32768 ≤ 1 := by
    rw [div_le_one (by norm_num)]
    linarith
  unfold quantize
  rw [clampQ_id hk1 hk2]
  rcases le_or_lt 0 k with hk | hk
  · have hk0 : (0 : ℚ) ≤ (k : ℚ) := by exact_mod_cast hk
    have hq0 : (0 : ℚ) ≤ (k : ℚ) / 32768 * 32767 := by positivity
    rw [ratTrunc_of_nonneg hq0]
    have hsplit : (k : ℚ) / 32768 * 32767 = (k : ℚ) + -(k : ℚ) / 32768 := by ring
    rw [hsplit, Int.floor_int_add]
    have hfl : ⌊-(k : ℚ) / 32768⌋ = 0 ∨ ⌊-(k : ℚ) / 32768⌋ = -1 := by
      have hub : ⌊-(k : ℚ) / 32768⌋ ≤ 0 := by
        apply Int.floor_nonpos
        rw [neg_div, neg_nonpos]
        positivity
      have hlb : (-1 : ℤ) ≤ ⌊-(k : ℚ) / 32768⌋ := by
        apply Int.le_floor.mpr
        push_cast
        rw [le_div_iff₀ (by norm_num)]
        linarith
      omega
    rcases hfl with h | h <;>
      · rw [h, abs_le]
        constructor <;> (push_cast; linarith)
  · have hknq : (k : ℚ) < 0 := by exact_mod_cast hk
    have hq0 : (k : ℚ) / 32768 * 32767 ≤ 0 := by nlinarith
    rw [ratTrunc_of_nonpos hq0]
    have hsplit : -((k : ℚ) / 32768 * 32767) = ((-k : ℤ) : ℚ) + (k : ℚ) / 32768 := by
      push_cast
      ring
    rw [hsplit, Int.floor_int_add]
    have hfl : ⌊(k : ℚ) / 32768⌋ = -1 := by
      have hub : ⌊(k : ℚ) / 32768⌋ < 0 := by
        apply Int.floor_lt.mpr
        push_cast
        exact div_neg_of_neg_of_pos hknq (by norm_num)
      have hlb : (-1 : ℤ) ≤ ⌊(k : ℚ) / 32768⌋ := by
        apply Int.le_floor.mpr
        push_cast
        linarith
      omega
    rw [hfl, abs_le]
    constructor <;> (push_cast; linarith)

/-- C8: for a buffer whose samples are exactly representable at 16-bit
resolution (`k / 32768` with `-32768 ≤ k ≤ 32767`) and a rate for which the
encoder succeeds, decoding the encoded container returns a buffer of the same
length and rate whose samples are each within one quantization step
(`1 / 32768`) of the originals. -/
theorem encode_decode_roundtrip (s : List ℚ) (rate : ℕ)
    (hrep : ∀ x ∈ s, ∃ k : ℤ, -32768 ≤ k ∧ k ≤ 32767 ∧ x = (k : ℚ) / 32768)
    (h1 : 0 < rate) (h2 : 2 * rate < 2 ^ 32) (h3 : 36 + 2 * s.length < 2 ^ 32) :
    ∃ w out, samplesToWav s rate = some w ∧ wavToSamples w = some (out, rate) ∧
      out.length = s.length ∧
      ∀ i, i < s.length → |out.getD i 0 - s.getD i 0| ≤ 1 / 32768 := by
  refine ⟨_, _, samplesToWav_eq s rate h1 h2 h3, wavToSamples_render s rate h2 h3, by simp, ?_⟩
  intro i hi
  have hi2 : i < (s.map (fun x => ((quantize x : ℤ) : ℚ) / 32768)).length := by simpa
  rw [List.getD_eq_getElem _ _ hi2, List.getD_eq_getElem _ _ hi, List.getElem_map]
  obtain ⟨k, hk1, hk2, hkx⟩ := hrep s[i] (List.getElem_mem hi)
  rw [hkx]
  exact quantize_roundtrip_close k hk1 hk2

/-- C4: for distinct positive rates, resampling produces
`floor(old_length / ratio)` samples with `ratio = from_rate / to_rate`, and
the sample at index `i` is the linear interpolation
`s[idx] * (1 - frac) + s[idx + 1] * frac` of the samples around the
fractional source position `src = i * ratio` (`idx = floor src`,
`frac = src - idx`), falling back to `s[idx]` when only `idx` is in bounds
and to 0 when `idx` is out of bounds. -/
theorem resample_linear_interpolation (s : List ℚ) (fromRate toRate : ℕ)
    (hne : fromRate ≠ toRate) (hf : 0 < fromRate) (ht : 0 < toRate) :
    ∃ out, resample s fromRate toRate = some out ∧
      out.length = (⌊(s.length : ℚ) / ((fromRate : ℚ) / (toRate : ℚ))⌋).toNat ∧
      ∀ i, i < out.length →
        out.getD i 0 =
          (let src : ℚ := (i : ℚ) * ((fromRate : ℚ) / (toRate : ℚ))
           let idx : ℕ := (⌊src⌋).toNat
           let frac : ℚ := src - (idx : ℚ)
           if idx + 1 < s.length then s.getD idx 0 * (1 - frac) + s.getD (idx + 1) 0 * frac
           else if idx < s.length then s.getD idx 0
           else 0) := by
  have hratio : (0 : ℚ) < (fromRate : ℚ) / (toRate : ℚ) :=
    div_pos (by exact_mod_cast hf) (by exact_mod_cast ht)
  have hlen : (0 : ℚ) ≤ (s.length : ℚ) / ((fromRate : ℚ) / (toRate : ℚ)) :=
    div_nonneg (by positivity) hratio.le
  unfold resample
  rw [if_neg hne, if_neg (by omega)]
  refine ⟨_, rfl, ?_, ?_⟩
  · rw [List.length_map, List.length_range, ratTrunc_of_nonneg hlen]
  · intro i hi
    rw [List.length_map, List.length_range] at hi
    rw [List.getD_eq_getElem _ _ (by simpa using hi), List.getElem_map, List.getElem_range]
    have hsrc : (0 : ℚ) ≤ (i : ℚ) * ((fromRate : ℚ) / (toRate : ℚ)) :=
      mul_nonneg (by positivity) hratio.le
    simp only [ratTrunc_of_nonneg hsrc]

/-- C2 (amended): whenever container opening fails (malformed or truncated
header, non-PCM format tag, zero channel count, zero declared sample width,
bad chunk structure), decoding fails with no partial sample buffer; but a
channel count above 2 is not rejected: such a container decodes with its
samples left interleaved (see the counterexample). -/
theorem decode_fails_on_bad_header (b : List ℕ) (h : wavOpenRead b = none) :
    wavToSamples b = none := by
  unfold wavToSamples
  rw [h]
  rfl

/-- C2 amended-claim witness: a truncated two-byte header. -/
theorem decode_fails_on_bad_header_spot :
    wavOpenRead [82, 73] = none ∧ wavToSamples [82, 73] = none :=
  ⟨by decide, decode_fails_on_bad_header [82, 73] (by decide)⟩

/-- C2 counterexample: a container declaring 3 channels is decoded rather
than rejected; its three 16-bit samples come back interleaved and
unmixed. -/
theorem decode_accepts_three_channels :
    wavOpenRead ([82, 73, 70, 70] ++ u32le 42 ++ [87, 65, 86, 69] ++ [102, 109, 116, 32]
        ++ u32le 16 ++ u16le 1 ++ u16le 3 ++ u32le 8000 ++ u32le 48000 ++ u16le 6
        ++ u16le 16 ++ [100, 97, 116, 97] ++ u32le 6 ++ [1, 0, 2, 0, 3, 0])
      = some ((3, 2, 8000), [1, 0, 2, 0, 3, 0]) ∧
    wavToSamples ([82, 73, 70, 70] ++ u32le 42 ++ [87, 65, 86, 69] ++ [102, 109, 116, 32]
        ++ u32le 16 ++ u16le 1 ++ u16le 3 ++ u32le 8000 ++ u32le 48000 ++ u16le 6
        ++ u16le 16 ++ [100, 97, 116, 97] ++ u32le 6 ++ [1, 0, 2, 0, 3, 0])
      = some ([1 / 32768, 2 / 32768, 3 / 32768], 8000) :=
  ⟨by decide, by decide⟩

/-- C4 witness. -/
theorem resample_linear_interpolation_spot :
    ∃ out, resample [1, 2] 4 2 = some out ∧
      out.length = (⌊(([(1 : ℚ), 2]).length : ℚ) / ((4 : ℚ) / (2 : ℚ))⌋).toNat ∧
      ∀ i, i < out.length →
        out.getD i 0 =
          (let src : ℚ := (i : ℚ) * ((4 : ℚ) / (2 : ℚ))
           let idx : ℕ := (⌊src⌋).toNat
           let frac : ℚ := src - (idx : ℚ)
           if idx + 1 < ([(1 : ℚ), 2]).length then
             ([(1 : ℚ), 2]).getD idx 0 * (1 - frac) + ([(1 : ℚ), 2]).getD (idx + 1) 0 * frac
           else if idx < ([(1 : ℚ), 2]).length then ([(1 : ℚ), 2]).getD idx 0
           else 0) :=
  resample_linear_interpolation [1, 2] 4 2 (by decide) (by decide) (by decide)

/-- C5 amended-claim witness. -/
theorem samplesToWav_container_fields_spot :
    ∃ w, samplesToWav [1 / 2] 8000 = some w ∧
      w.length = 44 + 2 * ([(1 : ℚ) / 2]).length ∧
      leDec ((w.drop 22).take 2) = 1 ∧
      leDec ((w.drop 24).take 4) = 8000 ∧
      leDec ((w.drop 34).take 2) = 16 ∧
      w.drop 44 = (([(1 : ℚ) / 2]).map (fun x =>
        u16le ((ratTrunc (max (-1) (min 1 x) * 32767)) % 65536).toNat)).flatten :=
  samplesToWav_container_fields [1 / 2] 8000 (by decide) (by decide) (by decide)

/-- C8 witness. -/
theorem encode_decode_roundtrip_spot :
    ∃ w out, samplesToWav [1 / 2, -1, 0] 8000 = some w ∧ wavToSamples w = some (out, 8000) ∧
      out.length = ([(1 : ℚ) / 2, -1, 0]).length ∧
      ∀ i, i < ([(1 : ℚ) / 2, -1, 0]).length →
        |out.getD i 0 - ([(1 : ℚ) / 2, -1, 0]).getD i 0| ≤ 1 / 32768 :=
  encode_decode_roundtrip [1 / 2, -1, 0] 8000
    (by
      intro x hx
      fin_cases hx
      · exact ⟨16384, by norm_num, by norm_num, by norm_num⟩
      · exact ⟨-32768, by norm_num, by norm_num, by norm_num⟩
      · exact ⟨0, by norm_num, by norm_num, by norm_num⟩)
    (by decide) (by decide) (by decide)

theorem u16le_mem_lt (n b : ℕ) (h : b ∈ u16le n) : b < 256 := by
  simp [u16le] at h
  rcases h with rfl | rfl <;> omega

theorem u32le_mem_lt (n b : ℕ) (h : b ∈ u32le n) : b < 256 := by
  simp [u32le] at h
  rcases h with rfl | rfl | rfl | rfl <;> omega

theorem wavRender_bytes_lt (rate dl : ℕ) (packed : List ℕ)
    (hpk : ∀ b ∈ packed, b < 256) : ∀ b ∈ wavRender rate dl packed, b < 256 := by
  intro b hb
  rw [wavRender] at hb
  simp only [List.mem_append, or_assoc] at hb
  rcases hb with h | h | h | h | h | h | h | h | h | h | h | h | h | h
  · fin_cases h <;> omega
  · exact u32le_mem_lt _ _ h
  · fin_cases h <;> omega
  · fin_cases h <;> omega
  · exact u32le_mem_lt _ _ h
  · exact u16le_mem_lt _ _ h
  · exact u16le_mem_lt _ _ h
  · exact u32le_mem_lt _ _ h
  · exact u32le_mem_lt _ _ h
  · exact u16le_mem_lt _ _ h
  · exact u16le_mem_lt _ _ h
  · fin_cases h <;> omega
  · exact u32le_mem_lt _ _ h
  · exact hpk b h

theorem packed_bytes_lt (s : List ℚ) :
    ∀ b ∈ (s.map (fun x => u16le (quantize x % 65536).toNat)).flatten, b < 256 := by
  intro b hb
  rw [List.mem_flatten] at hb
  obtain ⟨piece, hp, hbp⟩ := hb
  rw [List.mem_map] at hp
  obtain ⟨x, _, rfl⟩ := hp
  exact u16le_mem_lt _ _ hbp

theorem samplesToWav_some (s : List ℚ) (rate : ℕ) (w : List ℕ)
    (h : samplesToWav s rate = some w) :
    w = wavRender rate (2 * s.length)
        ((s.map (fun x => u16le (quantize x % 65536).toNat)).flatten)
      ∧ 0 < rate ∧ 2 * rate < 2 ^ 32 ∧ 36 + 2 * s.length < 2 ^ 32 := by
  unfold samplesToWav at h
  by_cases h0 : rate = 0
  · rw [if_pos h0] at h
    exact absurd h (by simp)
  · rw [if_neg h0, packSamples_eq] at h
    have hp := packedLength s
    simp only [Option.bind_eq_bind, Option.some_bind, hp] at h
    split at h
    · exact absurd h (by simp)
    · rename_i hcond
      have hdl : 2 * s.length / 2 * 2 = 2 * s.length := by omega
      rw [hdl] at h
      refine ⟨(Option.some.inj h).symm, by omega, by omega, by omega⟩

theorem b64index_b64char : ∀ n, n < 64 → b64index (b64char n) = some n := by decide

theorem b64char_ne_pad : ∀ n, n < 64 → b64char n ≠ '=' := by decide

theorem b64decode_encode (bs : List ℕ) (h : ∀ b ∈ bs, b < 256) :
    b64decodeL (b64encodeL bs) = some bs := by
  induction bs using b64encodeL.induct with
  | case1 => rfl
  | case2 a =>
    have ha : a < 256 := h a (by simp)
    rw [b64encodeL, b64decodeL, if_pos ⟨rfl, rfl, rfl⟩,
      b64index_b64char _ (by omega), b64index_b64char _ (by omega)]
    simp only [Option.bind_eq_bind, Option.some_bind]
    have e : a / 4 * 4 + a % 4 * 16 / 16 = a := by omega
    rw [e]
    rfl
  | case3 a b =>
    have ha : a < 256 := h a (by simp)
    have hb : b < 256 := h b (by simp)
    rw [b64encodeL, b64decodeL,
      if_neg (by rintro ⟨h1, -⟩; exact b64char_ne_pad _ (by omega) h1),
      if_pos ⟨rfl, rfl⟩,
      b64index_b64char _ (by omega), b64index_b64char _ (by omega),
      b64index_b64char _ (by omega)]
    simp only [Option.bind_eq_bind, Option.some_bind]
    have e1 : a / 4 * 4 + (a % 4 * 16 + b / 16) / 16 = a := by omega
    have e2 : (a % 4 * 16 + b / 16) % 16 * 16 + b % 16 * 4 / 4 = b := by omega
    rw [e1, e2]
    rfl
  | case4 a b c t ih =>
    have ha : a < 256 := h a (by simp)
    have hb : b < 256 := h b (by simp)
    have hc : c < 256 := h c (by simp)
    have ht : ∀ x ∈ t, x < 256 := fun x hx => h x (by simp [hx])
    rw [b64encodeL, b64decodeL,
      if_neg (by rintro ⟨h1, -⟩; exact b64char_ne_pad _ (by omega) h1),
      if_neg (by rintro ⟨h1, -⟩; exact b64char_ne_pad _ (by omega) h1),
      b64index_b64char _ (by omega), b64index_b64char _ (by omega),
      b64index_b64char _ (by omega), b64index_b64char _ (by omega), ih ht]
    simp only [Option.bind_eq_bind, Option.some_bind]
    have e1 : a / 4 * 4 + (a % 4 * 16 + b / 16) / 16 = a := by omega
    have e2 : (a % 4 * 16 + b / 16) % 16 * 16 + (b % 16 * 4 + c / 64) / 4 = b := by omega
    have e3 : (b % 16 * 4 + c / 64) % 4 * 64 + c % 64 = c := by omega
    rw [e1, e2, e3]
    rfl

theorem digitChar_isDigit : ∀ d : Fin 10, (Char.ofNat (48 + d.val)).isDigit = true := by decide

theorem generateText_length (draws : ℕ → Fin 10) (n : ℕ) :
    (generateText draws n).length = n := by
  simp [generateText, String.length]

theorem generateText_digits (draws : ℕ → Fin 10) (n : ℕ) :
    ∀ ch ∈ (generateText draws n).data, ch.isDigit := by
  intro ch hch
  simp only [generateText] at hch
  rw [List.mem_map] at hch
  obtain ⟨i, -, rfl⟩ := hch
  exact digitChar_isDigit (draws i)

/-- C9: whenever `generate 5` returns, the text is exactly 5 ASCII digits and
the audio string starts with the literal prefix `data:audio/wav;base64,`,
whose base64 payload decodes to a container declaring 1 channel and 16-bit
(2-byte) samples. -/
theorem generate_default_shape (draws : ℕ → Fin 10) (tts : String → List ℕ)
    (p : DistortionProfile) (text audio : String)
    (h : generate 5 draws tts p = some (text, audio)) :
    text.length = 5 ∧ (∀ ch ∈ text.data, ch.isDigit) ∧
      audio.data.take 22 = "data:audio/wav;base64,".data ∧
      ∃ wav raw, b64decodeL (audio.data.drop 22) = some wav ∧
        wavOpenRead wav = some ((1, 2, 22050), raw) := by
  unfold generate at h
  simp only [Option.bind_eq_bind] at h
  obtain ⟨wav, hw, hpair⟩ := Option.bind_eq_some.mp h
  obtain ⟨htext, haudio⟩ := Prod.ext_iff.mp (Option.some.inj hpair)
  subst htext
  subst haudio
  unfold generateAudio at hw
  simp only [Option.bind_eq_bind] at hw
  obtain ⟨⟨s0, r0⟩, hdec, hw2⟩ := Option.bind_eq_some.mp hw
  have hfinal : ∃ s2, samplesToWav s2 22050 = some wav := by
    split at hw2
    · obtain ⟨s1, -, hw3⟩ := Option.bind_eq_some.mp hw2
      obtain ⟨s2, -, hw4⟩ := Option.bind_eq_some.mp hw3
      exact ⟨s2, hw4⟩
    · rw [Option.some_bind] at hw2
      obtain ⟨s2, -, hw4⟩ := Option.bind_eq_some.mp hw2
      exact ⟨s2, hw4⟩
  obtain ⟨s2, hw4⟩ := hfinal
  obtain ⟨hwav, hr1, hr2, hr3⟩ := samplesToWav_some _ _ _ hw4
  subst hwav
  have hbytes := wavRender_bytes_lt 22050 (2 * s2.length) _ (packed_bytes_lt s2)
  refine ⟨generateText_length draws 5, generateText_digits draws 5, ?_, ?_⟩
  · show ("data:audio/wav;base64,".data ++ b64encodeL _).take 22 = _
    exact List.take_left' (by decide)
  · refine ⟨_, _, ?_, wavOpenRead_render 22050 s2.length _ (packedLength s2) hr2 hr3⟩
    show b64decodeL (("data:audio/wav;base64,".data ++ b64encodeL _).drop 22) = _
    rw [List.drop_left' (by decide)]
    exact b64decode_encode _ hbytes

/-- C9 witness: a constant random source, a text-to-speech stub returning a
minimal 22050 Hz mono 16-bit container, and a silent distortion profile. -/
theorem generate_default_shape_spot :
    ("00000" : String).length = 5 ∧ (∀ ch ∈ ("00000" : String).data, ch.isDigit) ∧
      ("data:audio/wav;base64,UklGRiQAAABXQVZFZm10IBAAAAABAAEAIlYAAESsAAACABAAZGF0YQAAAAA=" : String).data.take 22
        = "data:audio/wav;base64,".data ∧
      ∃ wav raw,
        b64decodeL (("data:audio/wav;base64,UklGRiQAAABXQVZFZm10IBAAAAABAAEAIlYAAESsAAACABAAZGF0YQAAAAA=" : String).data.drop 22)
          = some wav ∧
        wavOpenRead wav = some ((1, 2, 22050), raw) :=
  generate_default_shape (fun _ => (0 : Fin 10))
    (fun _ => [82, 73, 70, 70, 36, 0, 0, 0, 87, 65, 86, 69, 102, 109, 116, 32, 16, 0, 0, 0,
      1, 0, 1, 0, 34, 86, 0, 0, 68, 172, 0, 0, 2, 0, 16, 0, 100, 97, 116, 97, 0, 0, 0, 0])
    ⟨fun _ => 0, 0, 0, [], 0, 0, fun _ => 0⟩
    "00000" "data:audio/wav;base64,UklGRiQAAABXQVZFZm10IBAAAAABAAEAIlYAAESsAAACABAAZGF0YQAAAAA="
    (by decide)

end Captcha
